import Mathlib

/-!
Verification of the SourceNormalizer content classification and repair engine.

The definitions below are a shallow embedding of the C++ sources:
  * `src/normalizer.cpp` — error bits, `is_fixable`, `classify_errors`,
    `trim`, `append_tab_as_spaces`, `Normalizer::classify_invalid`,
    `Normalizer::find_errors`, the content-rewriting loop of
    `Normalizer::fix_the_file`, and the replacement protocol of
    `Normalizer::normalize`;
  * `src/utf16checker.cpp` — `Utf16Checker::check` with its endianness
    detection and character-class counts.

Buffers are lists of byte values (`Nat`, each below 256, matching the
`unsigned char` reads of the C++ code).  The C `<cctype>` classification
functions are modelled for the "C" locale in which the program runs:
`isspace` holds exactly on `' '` and `'\t'..'\r'` (9..13), `isprint` on
`0x20..0x7E`; bytes at or above 0x80 (negative `char` values in the C++
code) satisfy neither.
-/

namespace SourceNormalizer

/-- Error bit `err_tabs` from the anonymous enum in normalizer.cpp. -/
def err_tabs : Nat := 0x0001

/-- Error bit `err_unusual_whitespace` from normalizer.cpp. -/
def err_unusual_whitespace : Nat := 0x0002

/-- Error bit `err_trailing_whitespace` from normalizer.cpp. -/
def err_trailing_whitespace : Nat := 0x0004

/-- Error bit `err_cr_lf_line_endings` from normalizer.cpp. -/
def err_cr_lf_line_endings : Nat := 0x0008

/-- Error bit `err_no_lf_at_end` from normalizer.cpp. -/
def err_no_lf_at_end : Nat := 0x0010

/-- Mask `err_fixable` of all fixable error bits. -/
def err_fixable : Nat := 0x00ff

/-- Error bit `err_invalid_encoding` (possibly UTF-16) from normalizer.cpp. -/
def err_invalid_encoding : Nat := 0x0100

/-- Error bit `err_invalid_characters` from normalizer.cpp. -/
def err_invalid_characters : Nat := 0x0200

/-- Error bit `err_not_a_text_file` from normalizer.cpp. -/
def err_not_a_text_file : Nat := 0x0400

/-- Mask `err_hopeless` of all hopeless error bits. -/
def err_hopeless : Nat := 0xff00

/-- Embedding of `is_fixable` (normalizer.cpp lines 46-61): refuse if any
hopeless bit is present, then require at least one fixable bit. -/
def is_fixable (errors : Nat) : Bool :=
  if errors &&& err_hopeless ≠ 0 then false
  else if errors &&& err_fixable ≠ 0 then true
  else false

/-- Guard of the fixing branch in `Normalizer::normalize`
(normalizer.cpp line 217): the Fixer is invoked exactly when the caller
requested fixing and the error set is fixable. -/
def fixer_invoked (fix : Bool) (errors : Nat) : Bool :=
  fix && is_fixable errors

/-- C `isspace` in the "C" locale on byte values. -/
def c_isspace (c : Nat) : Bool :=
  c = 32 || (9 ≤ c && c ≤ 13)

/-- C `isprint` in the "C" locale on byte values. -/
def c_isprint (c : Nat) : Bool :=
  32 ≤ c && c ≤ 126

/-- Scanner state of `classify_errors` (normalizer.cpp lines 63-147): the
accumulated error bits, the running count of unusual whitespace, and the
two lookback character slots.  The slots hold the sentinel
`not_a_space = 0` initially and after masking. -/
structure ScanState where
  errors : Nat
  unusual : Int
  penultimate : Nat
  antepenultimate : Nat
deriving DecidableEq, Repr

/-- One iteration of the scanning loop of `classify_errors`
(normalizer.cpp lines 83-139), with the mutations of the `'\n'` case
unfolded: on a CR-LF pair the carriage return's unusual-whitespace count
is taken back and the lookback slots are masked so that neither the CR
nor the LF can later be seen as trailing content. -/
def scan_step (s : ScanState) (c : Nat) : ScanState :=
  if c < 32 ∨ 126 < c then
    if c = 10 then
      if s.penultimate = 13 then
        { errors :=
            if c_isspace s.antepenultimate then
              (s.errors ||| err_cr_lf_line_endings) ||| err_trailing_whitespace
            else s.errors ||| err_cr_lf_line_endings,
          unusual := s.unusual - 1,
          antepenultimate := 0,
          penultimate := 0 }
      else
        { errors :=
            if c_isspace s.penultimate then s.errors ||| err_trailing_whitespace
            else s.errors,
          unusual := s.unusual,
          antepenultimate := s.penultimate,
          penultimate := 0 }
    else if c = 9 then
      { s with errors := s.errors ||| err_tabs,
               antepenultimate := s.penultimate, penultimate := c }
    else if c = 13 ∨ c = 11 ∨ c = 12 then
      { s with unusual := s.unusual + 1,
               antepenultimate := s.penultimate, penultimate := c }
    else
      { s with errors := s.errors ||| err_invalid_characters,
               antepenultimate := s.penultimate, penultimate := c }
  else
    { s with antepenultimate := s.penultimate, penultimate := c }

/-- The scanning loop of `classify_errors` over a whole buffer. -/
def scan_loop : ScanState → List Nat → ScanState
  | s, [] => s
  | s, c :: rest => scan_loop (scan_step s c) rest

/-- Initial scanner state of `classify_errors`: both lookback slots hold
the sentinel, the count is zero, and the error word already carries the
missing-final-newline bit when the buffer is non-empty and does not end
with a line feed (normalizer.cpp lines 77-80). -/
def scan_init (data : List Nat) : ScanState :=
  { errors := if data ≠ [] ∧ data.getLast? ≠ some 10 then err_no_lf_at_end else 0,
    unusual := 0, penultimate := 0, antepenultimate := 0 }

/-- Embedding of `classify_errors` (normalizer.cpp lines 63-147): the
missing-final-newline check runs before the loop, the unusual-whitespace
bit is derived from the running count after the loop. -/
def classify_errors (data : List Nat) : Nat :=
  let s := scan_loop (scan_init data) data
  if s.unusual ≠ 0 then s.errors ||| err_unusual_whitespace else s.errors

/-- Embedding of `trim` (normalizer.cpp lines 161-167): the while loop
removes trailing `' '` bytes one at a time, which is the same as dropping
the longest all-space suffix. -/
def trim (text : List Nat) : List Nat :=
  (text.reverse.dropWhile (fun c => c = 32)).reverse

/-- Embedding of `append_tab_as_spaces` (normalizer.cpp lines 170-176):
pad the line with spaces to length `tab_width * ((length + tab_width - 1)
/ tab_width)`.  All quantities are non-negative in the C++ code, so `Nat`
arithmetic coincides with the `int` arithmetic of the source. -/
def append_tab_as_spaces (text : List Nat) (tab_width : Nat) : List Nat :=
  let length := text.length
  let tabbed_length := tab_width * ((length + tab_width - 1) / tab_width)
  text ++ List.replicate (tabbed_length - length) 32

/-- The content-rewriting loop of `Normalizer::fix_the_file`
(normalizer.cpp lines 389-429), accumulating the current `line` and
returning the byte sequence written to the temporary file: non-whitespace
bytes are copied, tabs are padded via `append_tab_as_spaces`, a line feed
trims and emits the line, any other whitespace becomes one space, and a
pending final line is trimmed and emitted, when non-empty, with one
appended line feed. -/
def fix_loop (tab_width : Nat) : List Nat → List Nat → List Nat
  | line, [] =>
    let t := trim line
    if t = [] then [] else t ++ [10]
  | line, c :: rest =>
    if c_isspace c then
      if c = 9 then fix_loop tab_width (append_tab_as_spaces line tab_width) rest
      else if c = 10 then trim line ++ 10 :: fix_loop tab_width [] rest
      else fix_loop tab_width (line ++ [32]) rest
    else fix_loop tab_width (line ++ [c]) rest

/-- The corrected content `Normalizer::fix_the_file` produces for a
buffer, starting from an empty line. -/
def fix_the_file (tab_width : Nat) (data : List Nat) : List Nat :=
  fix_loop tab_width [] data

/-- Embedding of `unit_type` (utf16checker.cpp lines 37-59). -/
def unit_type (code : Nat) : Nat :=
  if code < 0xD800 then 0
  else if code < 0xDC00 then 1
  else if code ≤ 0xDFFF then 2
  else 0

/-- Embedding of `is_normal_ascii` (utf16checker.cpp lines 62-84). -/
def is_normal_ascii (code : Nat) : Bool :=
  if 126 < code || code < 9 then false
  else if 32 ≤ code then true
  else if code ≤ 13 then true
  else false

/-- A little endian 16-bit code unit (`get_le_unit`). -/
def get_le_unit (b0 b1 : Nat) : Nat :=
  b0 ||| (b1 <<< 8)

/-- A big endian 16-bit code unit (`get_be_unit`). -/
def get_be_unit (b0 b1 : Nat) : Nat :=
  (b0 <<< 8) ||| b1

/-- The 16-bit code units of a byte sequence read little endian, as
`next_unit` enumerates them. -/
def le_units : List Nat → List Nat
  | b0 :: b1 :: rest => get_le_unit b0 b1 :: le_units rest
  | _ => []

/-- The 16-bit code units of a byte sequence read big endian. -/
def be_units : List Nat → List Nat
  | b0 :: b1 :: rest => get_be_unit b0 b1 :: be_units rest
  | _ => []

/-- The character-class counts of `Utf16Checker::Counts`. -/
structure U16Counts where
  normal_ascii : Nat
  weird_ascii : Nat
  total_characters : Nat
deriving DecidableEq, Repr

/-- Result of `Utf16Checker::check`: the enum values `eOK`, `eSIZE` and
`eINVALID`, with the counts attached to the successful case because the
caller reads them only then. -/
inductive U16Result where
  | eOK (counts : U16Counts)
  | eSIZE
  | eINVALID
deriving DecidableEq, Repr

/-- Embedding of `determine_endiannes` (utf16checker.cpp lines 183-230):
a byte-order mark decides and is consumed; otherwise up to 1000 units
(2000 bytes) are sampled under both orders and little endian is kept
unless big endian yields strictly more normal-ASCII units.  Returns the
chosen order (true = little endian) and the bytes left to decode. -/
def determine_endiannes (data : List Nat) : Bool × List Nat :=
  match data with
  | 0xff :: 0xfe :: rest => (true, rest)
  | 0xfe :: 0xff :: rest => (false, rest)
  | _ =>
    let sample := data.take 2000
    let le := (le_units sample).countP (fun u => is_normal_ascii u)
    let be := (be_units sample).countP (fun u => is_normal_ascii u)
    (!(decide (le < be)), data)

/-- The main loop of `Utf16Checker::check` (utf16checker.cpp lines
120-179) over the decoded code units, carrying the previous unit type
(0 = plain character, 1 = high surrogate; a consumed low surrogate is
reclassified as a plain character, so 2 is never carried). -/
def u16_scan : Nat → U16Counts → List Nat → U16Result
  | prev, counts, [] =>
    if prev ≠ 0 then U16Result.eINVALID else U16Result.eOK counts
  | prev, counts, u :: rest =>
    if unit_type u = 0 then
      if prev ≠ 0 then U16Result.eINVALID
      else
        let counts1 :=
          if u ≤ 0x7f then
            if is_normal_ascii u then
              { counts with normal_ascii := counts.normal_ascii + 1 }
            else
              { counts with weird_ascii := counts.weird_ascii + 1 }
          else counts
        u16_scan 0
          { counts1 with total_characters := counts1.total_characters + 1 } rest
    else if unit_type u = 1 then
      if prev = 1 then U16Result.eINVALID
      else u16_scan 1 counts rest
    else
      if prev ≠ 1 then U16Result.eINVALID
      else u16_scan 0
        { counts with total_characters := counts.total_characters + 1 } rest

/-- Embedding of `Utf16Checker::check` (utf16checker.cpp lines 103-180). -/
def utf16_check (data : List Nat) : U16Result :=
  if data.length < 2 ∨ data.length % 2 = 1 then U16Result.eSIZE
  else
    let en := determine_endiannes data
    let units := if en.1 then le_units en.2 else be_units en.2
    u16_scan 0 { normal_ascii := 0, weird_ascii := 0, total_characters := 0 } units

/-- The first four bytes of an ELF executable, `"\x7f" "ELF"`. -/
def elf_magic : List Nat := [0x7f, 0x45, 0x4c, 0x46]

/-- The UTF-16 acceptance test of `Normalizer::classify_invalid`
(normalizer.cpp lines 334-346): the checker must report `eOK`, no weird
ASCII characters may have been counted, and non-ASCII characters must be
less than about 5% of all decoded characters. -/
def utf16_accepted (data : List Nat) : Bool :=
  match utf16_check data with
  | U16Result.eOK counts =>
    decide (counts.weird_ascii = 0) &&
      decide (20 * (counts.total_characters - counts.normal_ascii)
        < counts.total_characters)
  | _ => false

/-- Embedding of `Normalizer::classify_invalid` (normalizer.cpp lines
320-366).  The enum values are `eDONT_KNOW = 0`, `eBINARY = 1`,
`eUTF16 = 2`; the ELF branch of the source returns `true`, which converts
to 1 = `eBINARY`. -/
def classify_invalid (data : List Nat) : Nat :=
  if 50 < data.length ∧ data.take 4 = elf_magic then 1
  else if utf16_accepted data then 2
  else
    let normal := data.countP (fun c => c_isprint c || c_isspace c)
    let weird := data.countP (fun c => !(c_isprint c || c_isspace c))
    if normal < 5 * weird then 1
    else 0

/-- The error set `Normalizer::find_errors` (normalizer.cpp lines
253-316) leaves in `m_errors`: when invalid characters were found the
whole set is replaced by the single hopeless bit that
`classify_invalid` selects, if any. -/
def find_errors_result (data : List Nat) : Nat :=
  let errors := classify_errors data
  if errors = 0 then 0
  else if errors &&& err_invalid_characters ≠ 0 then
    if classify_invalid data = 1 then err_not_a_text_file
    else if classify_invalid data = 2 then err_invalid_encoding
    else errors
  else errors

/-- The filesystem operations the replacement protocol of
`Normalizer::normalize` / `fix_the_file` can attempt, in source order:
write the `.tmp~` sibling, remove a stale `.bak~` sibling, rename the
original to `.bak~`, rename the temporary to the original name. -/
inductive FileOp where
  | write_temp
  | remove_backup
  | rename_original_to_backup
  | rename_temp_to_original
deriving DecidableEq, Repr

/-- The three sibling paths the protocol touches: the original file, the
`.bak~` backup and the `.tmp~` temporary, each holding some content or
absent. -/
structure FileSystem (α : Type) where
  original : Option α
  backup : Option α
  temp : Option α
deriving DecidableEq

/-- Model of the replacement protocol (normalizer.cpp lines 217-229 and
381-433).  `fix_the_file` truncates and writes the temporary and reports
through `output.good()` after the flush whether the write worked
(`write_ok`; on failure the temporary holds some `leftover` bytes).  Only
on success does `normalize` remove any stale backup, rename the original
to the backup name, and — only if that rename succeeded — rename the
temporary onto the original name.  A failed rename leaves the filesystem
unchanged.  The returned list records the operations attempted, in
order. -/
def fix_and_replace {α : Type} (fs : FileSystem α) (fixed leftover : α)
    (write_ok rename1_ok rename2_ok : Bool) : FileSystem α × List FileOp :=
  let fs1 : FileSystem α := { fs with temp := some (if write_ok then fixed else leftover) }
  if write_ok then
    let fs2 : FileSystem α := { fs1 with backup := none }
    if rename1_ok then
      let fs3 : FileSystem α :=
        { fs2 with backup := fs2.original, original := none }
      if rename2_ok then
        ({ fs3 with original := fs3.temp, temp := none },
          [FileOp.write_temp, FileOp.remove_backup,
           FileOp.rename_original_to_backup, FileOp.rename_temp_to_original])
      else
        (fs3,
          [FileOp.write_temp, FileOp.remove_backup,
           FileOp.rename_original_to_backup, FileOp.rename_temp_to_original])
    else
      (fs2,
        [FileOp.write_temp, FileOp.remove_backup,
         FileOp.rename_original_to_backup])
  else
    (fs1, [FileOp.write_temp])

/-- Masking used by the scanner's lookback slots: a line feed is replaced
by the sentinel `not_a_space = 0` so it is never seen as trailing
whitespace of the next line. -/
def mask_lf (c : Nat) : Nat :=
  if c = 10 then 0 else c

/-- Value of the scanner's `penultimate` slot as a function of the raw
byte just before the current position (`none` at the start of the
buffer). -/
def pen_of : Option Nat → Nat
  | none => 0
  | some q => mask_lf q

/-- Value of the scanner's `antepenultimate` slot as a function of the
two raw bytes before the current position: it is the masked
second-previous byte, additionally cleared when those two bytes formed a
CR-LF pair. -/
def ante_of : Option Nat → Option Nat → Nat
  | none, _ => 0
  | some _, none => 0
  | some r, some q => if q = 10 ∧ r = 13 then 0 else mask_lf r

/-- The character the scanner inspects for trailing whitespace when a
line feed arrives, in terms of the two raw bytes before the line feed:
the previous byte, or the byte before that when the previous byte is a
carriage return; a missing byte or a line feed counts as the
non-whitespace sentinel. -/
def inspected (p2 p1 : Option Nat) : Nat :=
  match p1 with
  | none => 0
  | some q =>
    if q = 13 then
      match p2 with
      | none => 0
      | some r => mask_lf r
    else mask_lf q

/-- Positional reading of the buffer: some line feed forms a CR-LF pair
with the byte before it. -/
def crlf_found (p1 : Option Nat) : List Nat → Bool
  | [] => false
  | c :: rest =>
    (decide (c = 10) && decide (p1 = some 13)) || crlf_found (some c) rest

/-- Positional reading of the buffer: some line feed has a whitespace
character at the inspected lookback position. -/
def trailing_found (p2 p1 : Option Nat) : List Nat → Bool
  | [] => false
  | c :: rest =>
    (decide (c = 10) && c_isspace (inspected p2 p1)) ||
      trailing_found p1 (some c) rest

/-- Positional reading of the running unusual-whitespace count: CR, VT
and FF each add one, and a line feed takes one back when the previous
byte was a CR. -/
def unusual_count (p1 : Option Nat) : List Nat → Int
  | [] => 0
  | c :: rest =>
    ((if c = 13 ∨ c = 11 ∨ c = 12 then 1 else 0) -
      (if c = 10 ∧ p1 = some 13 then 1 else 0)) + unusual_count (some c) rest

/-- The unusual-whitespace occurrences that actually remain counted: a
vertical tab, a form feed, or a free-standing carriage return (one not
immediately followed by a line feed). -/
def free_unusual : List Nat → Int
  | [] => 0
  | c :: rest =>
    (if c = 11 ∨ c = 12 ∨ (c = 13 ∧ rest.head? ≠ some 10) then 1 else 0) +
      free_unusual rest

/-- Adjacent-pair condition of claim C9: no line feed is immediately
preceded by a whitespace byte, with `p1` the byte just before the list
(`none` at the start of the buffer). -/
def pairs_ok (p1 : Option Nat) : List Nat → Bool
  | [] => true
  | c :: rest =>
    !(decide (c = 10) &&
        (match p1 with
         | none => false
         | some a => c_isspace a)) && pairs_ok (some c) rest

/-- An eight-byte buffer of the little endian byte order mark followed by
the text "ab\n" in 16-bit-per-character encoding. -/
def bom_ascii_buffer : List Nat :=
  [0xff, 0xfe, 0x61, 0x00, 0x62, 0x00, 0x0a, 0x00]

/-- An 82-byte buffer that begins with the ELF magic and nevertheless
decodes as structurally valid UTF-16LE with almost only ASCII
characters: the magic (two non-ASCII units) followed by 39 letters in
16-bit encoding. -/
def elf_utf16_buffer : List Nat :=
  elf_magic ++ (List.replicate 39 [0x61, 0x00]).flatten

/-- A line the fixer may hold in its accumulator: any whitespace in it is
an ordinary space. -/
def plain_line (l : List Nat) : Prop :=
  ∀ c ∈ l, c_isspace c = true → c = 32

/-- Shape of the fixer's output: a sequence of lines, each containing no
whitespace other than spaces and carrying no trailing spaces, each
terminated by exactly one line feed. -/
inductive out_ok : List Nat → Prop
  | nil : out_ok []
  | cons (l y : List Nat) : plain_line l → trim l = l → out_ok y →
      out_ok (l ++ 10 :: y)

/-- A single bit masked out of a word is either the bit or zero. -/
theorem land_single (x i : Nat) :
    x &&& 2 ^ i = if x.testBit i then 2 ^ i else 0 := by
  by_cases h : x.testBit i = true
  · rw [if_pos h]
    apply Nat.eq_of_testBit_eq
    intro j
    rw [Nat.testBit_and]
    by_cases hij : j = i
    · subst hij; simp [h]
    · simp [Nat.testBit_two_pow_of_ne (fun he => hij he.symm), Bool.and_false]
  · rw [if_neg h]
    rw [Bool.not_eq_true] at h
    apply Nat.eq_of_testBit_eq
    intro j
    rw [Nat.testBit_and, Nat.zero_testBit]
    by_cases hij : j = i
    · subst hij; simp [h]
    · simp [Nat.testBit_two_pow_of_ne (fun he => hij he.symm), Bool.and_false]

/-- Membership of a bit in a word, phrased through the mask test that the
C code uses. -/
theorem land_single_ne_zero (x i : Nat) :
    x &&& 2 ^ i ≠ 0 ↔ x.testBit i = true := by
  have hpow : (2 : Nat) ^ i ≠ 0 := by positivity
  rw [land_single]
  by_cases h : x.testBit i = true <;> simp [h, hpow]

/-- If a word meets a mask `b` and every bit of `b` lies inside `m`, the
word meets `m` as well. -/
theorem land_ne_zero_mono {e b m : Nat} (hbm : b &&& m = b) (h : e &&& b ≠ 0) :
    e &&& m ≠ 0 := by
  intro hm
  apply h
  apply Nat.eq_of_testBit_eq
  intro j
  rw [Nat.testBit_and, Nat.zero_testBit]
  by_cases hb : b.testBit j
  · have hmj : m.testBit j = true := by
      have := congrArg (fun t => t.testBit j) hbm
      simpa [Nat.testBit_and, hb] using this
    have he : (e &&& m).testBit j = false := by rw [hm]; exact Nat.zero_testBit j
    rw [Nat.testBit_and, hmj, Bool.and_true] at he
    simp [he]
  · simp [hb]

/-- Dropping a satisfying prefix twice is the same as dropping it once. -/
theorem dropWhile_idem (p : Nat → Bool) (l : List Nat) :
    List.dropWhile p (List.dropWhile p l) = List.dropWhile p l := by
  cases h : List.dropWhile p l with
  | nil => simp
  | cons a t =>
    have hh := List.head?_dropWhile_not p l
    rw [h] at hh
    simp only [List.head?_cons] at hh
    rw [List.dropWhile_cons_of_neg (by simp [hh])]

/-- Bytes of the trimmed line come from the original line. -/
theorem mem_trim {l : List Nat} {x : Nat} (h : x ∈ trim l) : x ∈ l := by
  unfold trim at h
  rw [List.mem_reverse] at h
  exact List.mem_reverse.mp (List.dropWhile_subset _ h)

/-- Trimming is idempotent. -/
theorem trim_trim (l : List Nat) : trim (trim l) = trim l := by
  unfold trim
  rw [List.reverse_reverse, dropWhile_idem]

/-- Trailing spaces appended to a line disappear when it is trimmed. -/
theorem trim_append_replicate (l : List Nat) (n : Nat) :
    trim (l ++ List.replicate n 32) = trim l := by
  unfold trim
  rw [List.reverse_append, List.reverse_replicate,
    List.dropWhile_append_of_pos (by simp [List.mem_replicate])]

/-- A line consisting only of spaces trims to nothing. -/
theorem trim_all_spaces {l : List Nat} (h : ∀ c ∈ l, c = 32) : trim l = [] := by
  have hrep : l = List.replicate l.length 32 := List.eq_replicate_length.mpr h
  rw [hrep]
  unfold trim
  rw [List.reverse_replicate, List.dropWhile_replicate]
  simp

/-- The fixer's accumulated line stays plain after the tab padding. -/
theorem plain_append_tab {line : List Nat} (h : plain_line line) (w : Nat) :
    plain_line (append_tab_as_spaces line w) := by
  intro c hc hs
  unfold append_tab_as_spaces at hc
  rcases List.mem_append.mp hc with h1 | h2
  · exact h c h1 hs
  · exact (List.mem_replicate.mp h2).2

/-- The fixer's output always has the `out_ok` shape. -/
theorem fix_loop_out_ok (w : Nat) :
    ∀ (input line : List Nat), plain_line line → out_ok (fix_loop w line input) := by
  intro input
  induction input with
  | nil =>
    intro line hline
    simp only [fix_loop]
    split
    · exact out_ok.nil
    · exact out_ok.cons (trim line) []
        (fun c hc hs => hline c (mem_trim hc) hs) (trim_trim line) out_ok.nil
  | cons c rest ih =>
    intro line hline
    simp only [fix_loop]
    by_cases hs : c_isspace c = true
    · rw [if_pos hs]
      by_cases h9 : c = 9
      · rw [if_pos h9]
        exact ih _ (plain_append_tab hline w)
      · rw [if_neg h9]
        by_cases h10 : c = 10
        · rw [if_pos h10]
          exact out_ok.cons (trim line) _
            (fun d hd hds => hline d (mem_trim hd) hds) (trim_trim line)
            (ih [] (fun d hd => absurd hd (List.not_mem_nil d)))
        · rw [if_neg h10]
          refine ih _ (fun d hd hds => ?_)
          rcases List.mem_append.mp hd with h1 | h2
          · exact hline d h1 hds
          · simpa using h2
    · rw [if_neg hs]
      refine ih _ (fun d hd hds => ?_)
      rcases List.mem_append.mp hd with h1 | h2
      · exact hline d h1 hds
      · have : d = c := by simpa using h2
        subst this
        exact absurd hds hs

/-- Feeding the fixer a plain chunk only extends its accumulated line. -/
theorem fix_loop_append (w : Nat) :
    ∀ (l line rest : List Nat), plain_line l →
      fix_loop w line (l ++ rest) = fix_loop w (line ++ l) rest := by
  intro l
  induction l with
  | nil => intro line rest _; simp
  | cons c l' ih =>
    intro line rest hl
    have hc : c_isspace c = true → c = 32 := hl c (List.mem_cons_self c l')
    have hl' : plain_line l' := fun d hd hds => hl d (List.mem_cons_of_mem c hd) hds
    show fix_loop w line (c :: (l' ++ rest)) = _
    simp only [fix_loop]
    by_cases hs : c_isspace c = true
    · have h32 : c = 32 := hc hs
      subst h32
      rw [if_pos hs, if_neg (by omega), if_neg (by omega), ih _ _ hl',
        show line ++ [32] ++ l' = line ++ 32 :: l' by simp]
    · rw [if_neg hs, ih _ _ hl',
        show line ++ [c] ++ l' = line ++ c :: l' by simp]

/-- Output already in the fixer's shape is left unchanged by the fixer. -/
theorem fix_loop_fixed_point (w : Nat) {y : List Nat} (h : out_ok y) :
    fix_loop w [] y = y := by
  induction h with
  | nil => simp [fix_loop, trim]
  | cons l y hp ht _ ih =>
    rw [show l ++ 10 :: y = l ++ (10 :: y) from rfl,
      fix_loop_append w l [] (10 :: y) hp]
    simp only [List.nil_append, fix_loop]
    simp [ht, ih, (by decide : c_isspace 10 = true)]

/-- Output in the fixer's shape is empty or ends with a line feed. -/
theorem out_ok_getLast {y : List Nat} (h : out_ok y) :
    y = [] ∨ y.getLast? = some 10 := by
  induction h with
  | nil => exact Or.inl rfl
  | cons l y _ _ _ ih =>
    right
    rw [show l ++ 10 :: y = (l ++ [10]) ++ y by simp, List.getLast?_append,
      List.getLast?_concat]
    rcases ih with h0 | h1
    · subst h0; rfl
    · rw [h1]; rfl

/-- Masking leaves every byte other than the line feed unchanged. -/
theorem mask_lf_of_ne {c : Nat} (h : c ≠ 10) : mask_lf c = c :=
  if_neg h

/-- The `penultimate` slot holds a carriage return exactly when the
previous raw byte was one. -/
theorem pen_of_eq_13 (p1 : Option Nat) : pen_of p1 = 13 ↔ p1 = some 13 := by
  cases p1 with
  | none => simp [pen_of]
  | some q =>
    simp only [pen_of, mask_lf, Option.some.injEq]
    split <;> simp_all

/-- At a CR the inspected character is the `antepenultimate` slot. -/
theorem ante_of_cr (p2 : Option Nat) : ante_of p2 (some 13) = inspected p2 (some 13) := by
  cases p2 <;> simp [ante_of, inspected]

/-- Away from a CR the inspected character is the `penultimate` slot. -/
theorem inspected_of_ne (p2 p1 : Option Nat) (h : p1 ≠ some 13) :
    inspected p2 p1 = pen_of p1 := by
  cases p1 with
  | none => rfl
  | some q =>
    have hq : ¬(q = 13) := fun hk => h (by rw [hk])
    simp [inspected, pen_of, hq]

/-- Shifting the lookback window past a byte other than a line feed. -/
theorem ante_of_shift (p1 : Option Nat) (c : Nat) (h : c ≠ 10) :
    ante_of p1 (some c) = pen_of p1 := by
  cases p1 with
  | none => rfl
  | some q => simp [ante_of, pen_of, h]

/-- Shifting the lookback window past a line feed that did not complete a
CR-LF pair. -/
theorem ante_of_lf (p1 : Option Nat) (h : p1 ≠ some 13) :
    ante_of p1 (some 10) = pen_of p1 := by
  cases p1 with
  | none => rfl
  | some q =>
    have hq : ¬(q = 13) := fun hk => h (by rw [hk])
    simp [ante_of, pen_of, hq]

theorem bit3_crlf : err_cr_lf_line_endings.testBit 3 = true := by decide

theorem bit3_trail : err_trailing_whitespace.testBit 3 = false := by decide

theorem bit3_tabs : err_tabs.testBit 3 = false := by decide

theorem bit3_inv : err_invalid_characters.testBit 3 = false := by decide

theorem bit2_trail : err_trailing_whitespace.testBit 2 = true := by decide

theorem bit2_crlf : err_cr_lf_line_endings.testBit 2 = false := by decide

theorem bit2_tabs : err_tabs.testBit 2 = false := by decide

theorem bit2_inv : err_invalid_characters.testBit 2 = false := by decide

theorem bit1_crlf : err_cr_lf_line_endings.testBit 1 = false := by decide

theorem bit1_trail : err_trailing_whitespace.testBit 1 = false := by decide

theorem bit1_tabs : err_tabs.testBit 1 = false := by decide

theorem bit1_inv : err_invalid_characters.testBit 1 = false := by decide

/-- One scanner step, characterised against the raw previous bytes: the
lookback slots track `ante_of`/`pen_of`, the CR-LF bit fires exactly on a
line feed after a CR, the trailing-whitespace bit exactly on a line feed
whose inspected character is whitespace, the unusual-whitespace bit is
untouched, and the running count moves by the positional contribution of
the byte. -/
theorem scan_step_spec (s : ScanState) (c : Nat) (p2 p1 : Option Nat)
    (ha : s.antepenultimate = ante_of p2 p1) (hp : s.penultimate = pen_of p1) :
    (scan_step s c).antepenultimate = ante_of p1 (some c) ∧
    (scan_step s c).penultimate = pen_of (some c) ∧
    ((scan_step s c).errors.testBit 3 =
      (s.errors.testBit 3 || (decide (c = 10) && decide (p1 = some 13)))) ∧
    ((scan_step s c).errors.testBit 2 =
      (s.errors.testBit 2 || (decide (c = 10) && c_isspace (inspected p2 p1)))) ∧
    ((scan_step s c).errors.testBit 1 = s.errors.testBit 1) ∧
    ((scan_step s c).unusual = s.unusual
      + (if c = 13 ∨ c = 11 ∨ c = 12 then (1 : Int) else 0)
      - (if c = 10 ∧ p1 = some 13 then (1 : Int) else 0)) := by
  by_cases h10 : c = 10
  · subst h10
    have hout : (10 : Nat) < 32 ∨ 126 < (10 : Nat) := by omega
    unfold scan_step
    rw [if_pos hout, if_pos rfl]
    by_cases hcr : p1 = some 13
    · subst hcr
      have hpen : s.penultimate = 13 := by rw [hp]; rfl
      rw [if_pos hpen]
      have hins : inspected p2 (some 13) = s.antepenultimate := by
        rw [ha, ante_of_cr]
      refine ⟨by simp [ante_of], by simp [pen_of, mask_lf], ?_, ?_, ?_, ?_⟩
      · by_cases hws : c_isspace s.antepenultimate = true <;>
          simp [hws, Nat.testBit_lor, bit3_crlf, bit3_trail]
      · by_cases hws : c_isspace s.antepenultimate = true <;>
          simp [hws, hins, Nat.testBit_lor, bit2_crlf, bit2_trail]
      · by_cases hws : c_isspace s.antepenultimate = true <;>
          simp [hws, Nat.testBit_lor, bit1_crlf, bit1_trail]
      · simp
    · have hpen : ¬(s.penultimate = 13) := by
        rw [hp]
        intro h
        exact hcr ((pen_of_eq_13 p1).mp h)
      rw [if_neg hpen]
      have hins : inspected p2 p1 = s.penultimate := by
        rw [hp, inspected_of_ne p2 p1 hcr]
      refine ⟨?_, by simp [pen_of, mask_lf], ?_, ?_, ?_, ?_⟩
      · rw [ante_of_lf p1 hcr, hp]
      · by_cases hws : c_isspace s.penultimate = true <;>
          simp [hws, hcr, Nat.testBit_lor, bit3_trail]
      · by_cases hws : c_isspace s.penultimate = true <;>
          simp [hws, hins, Nat.testBit_lor, bit2_trail]
      · by_cases hws : c_isspace s.penultimate = true <;>
          simp [hws, Nat.testBit_lor, bit1_trail]
      · simp [hcr]
  · have hsh : ante_of p1 (some c) = pen_of p1 := ante_of_shift p1 c h10
    have hmask : pen_of (some c) = c := by
      show mask_lf c = c
      exact mask_lf_of_ne h10
    by_cases hout : c < 32 ∨ 126 < c
    · unfold scan_step
      rw [if_pos hout, if_neg h10]
      by_cases h9 : c = 9
      · rw [if_pos h9]
        subst h9
        refine ⟨by rw [hsh, hp], by rw [hmask], ?_, ?_, ?_, by simp [h10]⟩
        · simp [h10, Nat.testBit_lor, bit3_tabs]
        · simp [h10, Nat.testBit_lor, bit2_tabs]
        · simp [Nat.testBit_lor, bit1_tabs]
      · rw [if_neg h9]
        by_cases hu : c = 13 ∨ c = 11 ∨ c = 12
        · rw [if_pos hu]
          refine ⟨by rw [hsh, hp], by rw [hmask], ?_, ?_, ?_, ?_⟩
          · simp [h10]
          · simp [h10]
          · simp
          · simp [hu, h10]
        · rw [if_neg hu]
          refine ⟨by rw [hsh, hp], by rw [hmask], ?_, ?_, ?_, ?_⟩
          · simp [h10, Nat.testBit_lor, bit3_inv]
          · simp [h10, Nat.testBit_lor, bit2_inv]
          · simp [Nat.testBit_lor, bit1_inv]
          · simp [hu, h10]
    · unfold scan_step
      rw [if_neg hout]
      have hnu : ¬(c = 13 ∨ c = 11 ∨ c = 12) := by omega
      refine ⟨by rw [hsh, hp], by rw [hmask], ?_, ?_, ?_, ?_⟩
      · simp [h10]
      · simp [h10]
      · simp
      · simp [hnu, h10]

/-- The scanning loop, characterised against the raw bytes: the CR-LF and
trailing-whitespace bits match the positional predicates, the
unusual-whitespace bit is never produced by the loop itself, and the
running count accumulates the positional contributions. -/
theorem scan_loop_spec :
    ∀ (l : List Nat) (s : ScanState) (p2 p1 : Option Nat),
      s.antepenultimate = ante_of p2 p1 → s.penultimate = pen_of p1 →
      ((scan_loop s l).errors.testBit 3 = (s.errors.testBit 3 || crlf_found p1 l)) ∧
      ((scan_loop s l).errors.testBit 2 =
        (s.errors.testBit 2 || trailing_found p2 p1 l)) ∧
      ((scan_loop s l).errors.testBit 1 = s.errors.testBit 1) ∧
      ((scan_loop s l).unusual = s.unusual + unusual_count p1 l) := by
  intro l
  induction l with
  | nil =>
    intro s p2 p1 _ _
    simp [scan_loop, crlf_found, trailing_found, unusual_count]
  | cons c rest ih =>
    intro s p2 p1 ha hp
    obtain ⟨hA, hP, h3, h2, h1, hu⟩ := scan_step_spec s c p2 p1 ha hp
    obtain ⟨i3, i2, i1, iu⟩ := ih (scan_step s c) p1 (some c) hA hP
    have hl : scan_loop s (c :: rest) = scan_loop (scan_step s c) rest := rfl
    refine ⟨?_, ?_, ?_, ?_⟩
    · rw [hl, i3, h3, Bool.or_assoc]
      simp [crlf_found]
    · rw [hl, i2, h2, Bool.or_assoc]
      simp [trailing_found]
    · rw [hl, i1, h1]
    · rw [hl, iu, hu]
      simp only [unusual_count]
      ring

/-- Unfolding of `classify_errors` through its let bindings. -/
theorem classify_errors_eq (data : List Nat) :
    classify_errors data =
      if (scan_loop (scan_init data) data).unusual ≠ 0
      then (scan_loop (scan_init data) data).errors ||| err_unusual_whitespace
      else (scan_loop (scan_init data) data).errors := rfl

/-- The initial error word never carries the tab, unusual, trailing or
CR-LF bits. -/
theorem scan_init_bits (data : List Nat) :
    (scan_init data).errors.testBit 3 = false ∧
    (scan_init data).errors.testBit 2 = false ∧
    (scan_init data).errors.testBit 1 = false := by
  refine ⟨?_, ?_, ?_⟩ <;> (simp only [scan_init]; split <;> decide)

/-- The CR-LF bit of `classify_errors` is exactly the positional CR-LF
predicate. -/
theorem classify_errors_bit3 (data : List Nat) :
    (classify_errors data).testBit 3 = crlf_found none data := by
  obtain ⟨h3, _, _, _⟩ := scan_loop_spec data (scan_init data) none none rfl rfl
  rw [classify_errors_eq]
  split
  · rw [Nat.testBit_lor, h3, (scan_init_bits data).1,
      (by decide : err_unusual_whitespace.testBit 3 = false)]
    simp
  · rw [h3, (scan_init_bits data).1]
    simp

/-- The trailing-whitespace bit of `classify_errors` is exactly the
positional inspected-character predicate. -/
theorem classify_errors_bit2 (data : List Nat) :
    (classify_errors data).testBit 2 = trailing_found none none data := by
  obtain ⟨_, h2, _, _⟩ := scan_loop_spec data (scan_init data) none none rfl rfl
  rw [classify_errors_eq]
  split
  · rw [Nat.testBit_lor, h2, (scan_init_bits data).2.1,
      (by decide : err_unusual_whitespace.testBit 2 = false)]
    simp
  · rw [h2, (scan_init_bits data).2.1]
    simp

/-- The carried-state unusual-whitespace count equals the lookahead
count of free-standing occurrences, up to the boundary correction for a
CR just before the list. -/
theorem unusual_count_eq_free :
    ∀ (l : List Nat) (p1 : Option Nat),
      unusual_count p1 l =
        free_unusual l - (if p1 = some 13 ∧ l.head? = some 10 then (1 : Int) else 0) := by
  intro l
  induction l with
  | nil => intro p1; simp [unusual_count, free_unusual]
  | cons c rest ih =>
    intro p1
    rw [show unusual_count p1 (c :: rest) =
      ((if c = 13 ∨ c = 11 ∨ c = 12 then (1 : Int) else 0) -
        (if c = 10 ∧ p1 = some 13 then (1 : Int) else 0)) +
        unusual_count (some c) rest from rfl]
    rw [ih (some c)]
    rw [show free_unusual (c :: rest) =
      (if c = 11 ∨ c = 12 ∨ (c = 13 ∧ rest.head? ≠ some 10) then (1 : Int) else 0) +
        free_unusual rest from rfl]
    by_cases h13 : c = 13
    · subst h13
      by_cases hh : rest.head? = some 10 <;> simp [hh]
    · have hsc : ¬(some c = some 13) := by simp [h13]
      by_cases h10 : c = 10
      · subst h10
        by_cases hp : p1 = some 13
        · simp only [hp, if_pos]
          simp
          ring
        · simp [hp, hsc, h13]
      · by_cases hu : c = 11 ∨ c = 12
        · simp [hu, hsc, h13, h10]
        · have hn : ¬(c = 13 ∨ c = 11 ∨ c = 12) := by tauto
          simp [hn, hsc, h13, h10, hu]

/-- The unusual-whitespace bit of `classify_errors` is set exactly when
some free-standing CR, VT or FF remains counted. -/
theorem classify_errors_bit1 (data : List Nat) :
    (classify_errors data).testBit 1 = decide (free_unusual data ≠ 0) := by
  obtain ⟨_, _, h1, hu⟩ := scan_loop_spec data (scan_init data) none none rfl rfl
  have hcount : (scan_loop (scan_init data) data).unusual = free_unusual data := by
    rw [hu]
    show (0 : Int) + unusual_count none data = free_unusual data
    rw [zero_add, unusual_count_eq_free]
    simp
  rw [classify_errors_eq, hcount]
  split
  · rename_i h
    rw [Nat.testBit_lor, h1, (scan_init_bits data).2.2,
      (by decide : err_unusual_whitespace.testBit 1 = true)]
    simp [h]
  · rename_i h
    rw [h1, (scan_init_bits data).2.2]
    simp at h
    simp [h]

/-- Over a buffer of printable bytes and line feeds in which no line feed
follows a whitespace byte, the scanner changes neither the error word nor
the unusual-whitespace count. -/
theorem scan_loop_clean :
    ∀ (l : List Nat) (s : ScanState) (p1 : Option Nat),
      s.penultimate = pen_of p1 →
      (∀ a, p1 = some a → (32 ≤ a ∧ a ≤ 126) ∨ a = 10) →
      (∀ c ∈ l, (32 ≤ c ∧ c ≤ 126) ∨ c = 10) →
      pairs_ok p1 l = true →
      (scan_loop s l).errors = s.errors ∧ (scan_loop s l).unusual = s.unusual := by
  intro l
  induction l with
  | nil =>
    intro s p1 _ _ _ _
    exact ⟨rfl, rfl⟩
  | cons c rest ih =>
    intro s p1 hp hall hmem hpo
    simp only [pairs_ok, Bool.and_eq_true] at hpo
    obtain ⟨hpo1, hpo2⟩ := hpo
    have hmem' : ∀ d ∈ rest, (32 ≤ d ∧ d ≤ 126) ∨ d = 10 :=
      fun d hd => hmem d (List.mem_cons_of_mem c hd)
    have hl : scan_loop s (c :: rest) = scan_loop (scan_step s c) rest := rfl
    rcases hmem c (List.mem_cons_self c rest) with hpr | h10
    · have hno : ¬(c < 32 ∨ 126 < c) := by omega
      have hc10 : c ≠ 10 := by omega
      have hstep : scan_step s c =
          { s with antepenultimate := s.penultimate, penultimate := c } := by
        unfold scan_step
        rw [if_neg hno]
      have hres := ih { s with antepenultimate := s.penultimate, penultimate := c }
        (some c)
        (by show c = pen_of (some c); show c = mask_lf c; rw [mask_lf_of_ne hc10])
        (fun a ha => by injection ha with hh; subst hh; exact Or.inl hpr)
        hmem' hpo2
      rw [hl, hstep]
      exact hres
    · subst h10
      have hpen13 : ¬(s.penultimate = 13) := by
        rw [hp]
        cases p1 with
        | none => simp [pen_of]
        | some a =>
          rcases hall a rfl with hha | hha
          · show ¬(mask_lf a = 13)
            rw [mask_lf_of_ne (by omega : a ≠ 10)]
            omega
          · subst hha
            simp [pen_of, mask_lf]
      have hws : c_isspace s.penultimate = false := by
        rw [hp]
        cases p1 with
        | none => decide
        | some a =>
          have hwa : c_isspace a = false := by simpa using hpo1
          by_cases ha10 : a = 10
          · subst ha10; decide
          · show c_isspace (mask_lf a) = false
            rw [mask_lf_of_ne ha10]
            exact hwa
      have hstep : scan_step s 10 =
          { errors := s.errors, unusual := s.unusual,
            antepenultimate := s.penultimate, penultimate := 0 } := by
        unfold scan_step
        rw [if_pos (show (10 : Nat) < 32 ∨ 126 < 10 by omega), if_pos rfl,
          if_neg hpen13, hws]
        simp
      have hres := ih
        { errors := s.errors, unusual := s.unusual,
          antepenultimate := s.penultimate, penultimate := 0 }
        (some 10) rfl
        (fun a ha => by injection ha with hh; subst hh; exact Or.inr rfl)
        hmem' hpo2
      rw [hl, hstep]
      exact hres

/-- A word with a given bit set keeps that bit under the mask test. -/
theorem land_of_testBit_true {x : Nat} (i : Nat) (h : x.testBit i = true) :
    x &&& 2 ^ i = 2 ^ i := by
  rw [land_single, h]
  simp

/-- C1: `is_fixable` returns false whenever any hopeless bit
(invalid-encoding, invalid-characters, not-a-text-file) is set, no matter
which fixable bits are also set, and consequently the fixing guard of
`normalize` never invokes the Fixer for such an error set. -/
theorem c1_hopeless_never_fixable (errors : Nat) (fix : Bool)
    (h : errors &&& err_invalid_encoding ≠ 0 ∨
      errors &&& err_invalid_characters ≠ 0 ∨
      errors &&& err_not_a_text_file ≠ 0) :
    is_fixable errors = false ∧ fixer_invoked fix errors = false := by
  have hh : errors &&& err_hopeless ≠ 0 := by
    rcases h with h | h | h
    · exact land_ne_zero_mono (by decide) h
    · exact land_ne_zero_mono (by decide) h
    · exact land_ne_zero_mono (by decide) h
  have hf : is_fixable errors = false := by
    unfold is_fixable
    rw [if_pos hh]
  refine ⟨hf, ?_⟩
  unfold fixer_invoked
  rw [hf, Bool.and_false]

/-- Witness for C1 at the error set 0x0101 (invalid-encoding together
with the fixable tab bit). -/
theorem c1_witness :
    (0x0101 &&& err_invalid_encoding ≠ 0 ∨
      0x0101 &&& err_invalid_characters ≠ 0 ∨
      0x0101 &&& err_not_a_text_file ≠ 0) ∧
    is_fixable 0x0101 = false ∧ fixer_invoked true 0x0101 = false :=
  ⟨Or.inl (by decide), c1_hopeless_never_fixable 0x0101 true (Or.inl (by decide))⟩

/-- C2 counterexample: a tab whose line prefix already sits at a tab stop
is not advanced to the next stop.  With tab width 4 and the empty prefix,
`append_tab_as_spaces` appends no spaces at all, so the fixed form of
"\tb" is "b\n" — the tab at the start of the line disappears instead of
expanding to four spaces. -/
theorem c2_counterexample :
    append_tab_as_spaces [] 4 = [] ∧ fix_the_file 4 [9, 98] = [98, 10] := by
  refine ⟨?_, ?_⟩ <;> decide

/-- C2 (amended): a tab pads the line with spaces up to the smallest
multiple of the tab width that is at least the current length — the tab
advances to the next tab stop only when the current length is not already
a multiple of the width, and otherwise adds nothing.  The spec's two
examples hold: with width 4, "a\tb" fixes to "a   b" and "ab\tcd" to
"ab  cd" (each emitted with the fixer's terminating line feed). -/
theorem c2_tab_expansion (line : List Nat) (w : Nat) (hw : 0 < w) :
    ((append_tab_as_spaces line w).take line.length = line ∧
     (∀ c ∈ (append_tab_as_spaces line w).drop line.length, c = 32) ∧
     line.length ≤ (append_tab_as_spaces line w).length ∧
     (append_tab_as_spaces line w).length < line.length + w ∧
     (append_tab_as_spaces line w).length % w = 0 ∧
     (line.length % w = 0 → (append_tab_as_spaces line w).length = line.length)) ∧
    fix_the_file 4 [97, 9, 98] = [97, 32, 32, 32, 98, 10] ∧
    fix_the_file 4 [97, 98, 9, 99, 100] = [97, 98, 32, 32, 99, 100, 10] := by
  have hq := Nat.div_add_mod (line.length + w - 1) w
  have hr : (line.length + w - 1) % w < w := Nat.mod_lt _ hw
  have hlen : (append_tab_as_spaces line w).length =
      line.length + (w * ((line.length + w - 1) / w) - line.length) := by
    unfold append_tab_as_spaces
    rw [List.length_append, List.length_replicate]
  have hle : line.length ≤ w * ((line.length + w - 1) / w) := by omega
  refine ⟨⟨?_, ?_, ?_, ?_, ?_, ?_⟩, by decide, by decide⟩
  · unfold append_tab_as_spaces
    exact List.take_left' rfl
  · intro c hc
    unfold append_tab_as_spaces at hc
    rw [List.drop_left' rfl] at hc
    exact (List.mem_replicate.mp hc).2
  · omega
  · omega
  · have : (append_tab_as_spaces line w).length = w * ((line.length + w - 1) / w) := by
      omega
    rw [this, Nat.mul_mod_right]
  · intro hmod
    obtain ⟨k, hk⟩ := Nat.dvd_of_mod_eq_zero hmod
    have hdiv : (line.length + w - 1) / w = k := by
      rw [hk, show w * k + w - 1 = w * k + (w - 1) by omega,
        Nat.mul_add_div hw, Nat.div_eq_of_lt (by omega), Nat.add_zero]
    rw [hdiv] at hlen
    omega

/-- Witness for C2 at tab width 4: both spec examples, obtained from the
theorem. -/
theorem c2_witness :
    fix_the_file 4 [97, 9, 98] = [97, 32, 32, 32, 98, 10] ∧
    fix_the_file 4 [97, 98, 9, 99, 100] = [97, 98, 32, 32, 99, 100, 10] :=
  ⟨(c2_tab_expansion [] 4 (by decide)).2.1,
   (c2_tab_expansion [] 4 (by decide)).2.2⟩

/-- C3: the fixer's content rewriting is idempotent — running the
rewriting on its own output reproduces the output byte for byte, for
every buffer and every tab width. -/
theorem c3_fixer_idempotent (w : Nat) (data : List Nat) :
    fix_the_file w (fix_the_file w data) = fix_the_file w data :=
  fix_loop_fixed_point w
    (fix_loop_out_ok w data [] (fun c hc => absurd hc (List.not_mem_nil c)))

/-- C6: the replacement protocol runs strictly in the order write
temporary, remove stale backup, rename original to backup, rename
temporary to original.  When the temporary write fails no rename is even
attempted and the original (and the backup) are untouched; when the first
rename fails the second is not attempted and the original is untouched;
when everything succeeds the original name holds the fixed content and
the backup holds the previous original. -/
theorem c6_replace_protocol (α : Type) (fs : FileSystem α) (fixed leftover : α)
    (r1 r2 : Bool) :
    ((fix_and_replace fs fixed leftover false r1 r2).1.original = fs.original ∧
     (fix_and_replace fs fixed leftover false r1 r2).1.backup = fs.backup ∧
     (fix_and_replace fs fixed leftover false r1 r2).2 = [FileOp.write_temp]) ∧
    ((fix_and_replace fs fixed leftover true false r2).1.original = fs.original ∧
     (fix_and_replace fs fixed leftover true false r2).2 =
       [FileOp.write_temp, FileOp.remove_backup,
        FileOp.rename_original_to_backup]) ∧
    ((fix_and_replace fs fixed leftover true true false).1.original = none ∧
     (fix_and_replace fs fixed leftover true true false).1.backup = fs.original ∧
     (fix_and_replace fs fixed leftover true true false).1.temp = some fixed) ∧
    ((fix_and_replace fs fixed leftover true true true).1.original = some fixed ∧
     (fix_and_replace fs fixed leftover true true true).1.backup = fs.original ∧
     (fix_and_replace fs fixed leftover true true true).2 =
       [FileOp.write_temp, FileOp.remove_backup,
        FileOp.rename_original_to_backup, FileOp.rename_temp_to_original]) := by
  refine ⟨⟨rfl, rfl, rfl⟩, ⟨rfl, rfl⟩, ⟨rfl, rfl, rfl⟩, ⟨rfl, rfl, rfl⟩⟩

/-- C7: a buffer longer than 50 bytes that begins with the ELF magic is
classified binary by `classify_invalid`, for every possible remainder of
the buffer. -/
theorem c7_elf_binary (data : List Nat) (hlen : 50 < data.length)
    (hmagic : data.take 4 = elf_magic) :
    classify_invalid data = 1 := by
  unfold classify_invalid
  rw [if_pos ⟨hlen, hmagic⟩]

/-- Witness for C7 at a 52-byte buffer of the ELF magic followed by 48
letter bytes. -/
theorem c7_witness :
    50 < (elf_magic ++ List.replicate 48 97).length ∧
    (elf_magic ++ List.replicate 48 97).take 4 = elf_magic ∧
    classify_invalid (elf_magic ++ List.replicate 48 97) = 1 :=
  ⟨by decide, by decide, c7_elf_binary _ (by decide) (by decide)⟩

/-- C10 counterexample: for the buffer "a\n\n" the fixed content is
"a\n\n" itself, which is non-empty and ends in two consecutive line
feeds, not in exactly one. -/
theorem c10_counterexample :
    fix_the_file 4 [97, 10, 10] = [97, 10, 10] ∧
    (fix_the_file 4 [97, 10, 10]).getLast? = some 10 ∧
    ((fix_the_file 4 [97, 10, 10]).dropLast).getLast? = some 10 := by
  refine ⟨?_, ?_, ?_⟩ <;> decide

/-- C10 (amended): the fixer's output is either empty or ends in a line
feed (the final emitted line is terminated by exactly one appended line
feed, though preserved blank lines may precede it); and a non-empty
buffer consisting only of spaces produces no output at all, so the fixed
file can be completely empty. -/
theorem c10_output_final_lf (w : Nat) (data : List Nat) :
    (fix_the_file w data = [] ∨ (fix_the_file w data).getLast? = some 10) ∧
    (data ≠ [] → (∀ c ∈ data, c = 32) → fix_the_file w data = []) := by
  constructor
  · exact out_ok_getLast
      (fix_loop_out_ok w data [] (fun c hc => absurd hc (List.not_mem_nil c)))
  · intro _ hall
    have hplain : plain_line data := fun c hc _ => hall c hc
    have happ := fix_loop_append w data [] [] hplain
    rw [List.append_nil, List.nil_append] at happ
    unfold fix_the_file
    rw [happ]
    simp only [fix_loop]
    rw [trim_all_spaces hall]
    simp

/-- Witness for C10 at the all-space buffer "   ". -/
theorem c10_witness : fix_the_file 4 [32, 32, 32] = [] :=
  (c10_output_final_lf 4 [32, 32, 32]).2 (by decide) (by decide)

/-- C4 counterexample: `elf_utf16_buffer` is accepted by the UTF-16
checker with zero weird-ASCII characters and non-ASCII below the 5%
bound, yet `classify_invalid` returns 1 (binary), not 2 (utf16), because
the ELF-magic short-circuit runs first. -/
theorem c4_counterexample :
    utf16_check elf_utf16_buffer =
      U16Result.eOK { normal_ascii := 39, weird_ascii := 0, total_characters := 41 } ∧
    (20 * (41 - 39) < 41 ∧ (0 : Nat) = 0) ∧
    classify_invalid elf_utf16_buffer = 1 := by
  refine ⟨?_, ⟨?_, rfl⟩, ?_⟩ <;> decide

/-- C4 (amended): provided the ELF short-circuit does not fire (the
buffer is at most 50 bytes long or does not begin with the ELF magic), a
buffer the UTF-16 checker accepts with zero weird-ASCII characters and
fewer than roughly 5% non-ASCII characters is classified utf16, and
`find_errors` then replaces the whole error set with the single
invalid-encoding bit; symmetrically a binary classification leaves only
the not-a-text-file bit.  The little endian BOM followed by
16-bit-per-character ASCII text is such a buffer. -/
theorem c4_utf16_reclassification :
    (∀ (data : List Nat) (counts : U16Counts),
      ¬(50 < data.length ∧ data.take 4 = elf_magic) →
      utf16_check data = U16Result.eOK counts →
      counts.weird_ascii = 0 →
      20 * (counts.total_characters - counts.normal_ascii) < counts.total_characters →
      classify_invalid data = 2) ∧
    (∀ data : List Nat,
      classify_errors data &&& err_invalid_characters ≠ 0 →
      classify_invalid data = 2 →
      find_errors_result data = err_invalid_encoding) ∧
    (∀ data : List Nat,
      classify_errors data &&& err_invalid_characters ≠ 0 →
      classify_invalid data = 1 →
      find_errors_result data = err_not_a_text_file) ∧
    find_errors_result bom_ascii_buffer = err_invalid_encoding := by
  have hacc : ∀ (data : List Nat) (counts : U16Counts),
      utf16_check data = U16Result.eOK counts →
      counts.weird_ascii = 0 →
      20 * (counts.total_characters - counts.normal_ascii) < counts.total_characters →
      utf16_accepted data = true := by
    intro data counts hok hw ht
    unfold utf16_accepted
    rw [hok]
    simp [hw, ht]
  have h1 : ∀ (data : List Nat) (counts : U16Counts),
      ¬(50 < data.length ∧ data.take 4 = elf_magic) →
      utf16_check data = U16Result.eOK counts →
      counts.weird_ascii = 0 →
      20 * (counts.total_characters - counts.normal_ascii) < counts.total_characters →
      classify_invalid data = 2 := by
    intro data counts helf hok hw ht
    unfold classify_invalid
    rw [if_neg helf, if_pos (hacc data counts hok hw ht)]
  have hne : ∀ data : List Nat,
      classify_errors data &&& err_invalid_characters ≠ 0 →
      ¬(classify_errors data = 0) := by
    intro data hinv h0
    rw [h0] at hinv
    exact hinv (by decide)
  have h2 : ∀ data : List Nat,
      classify_errors data &&& err_invalid_characters ≠ 0 →
      classify_invalid data = 2 →
      find_errors_result data = err_invalid_encoding := by
    intro data hinv hcl
    unfold find_errors_result
    rw [hcl]
    rw [if_neg (hne data hinv), if_pos hinv, if_neg (by omega), if_pos rfl]
  have h3 : ∀ data : List Nat,
      classify_errors data &&& err_invalid_characters ≠ 0 →
      classify_invalid data = 1 →
      find_errors_result data = err_not_a_text_file := by
    intro data hinv hcl
    unfold find_errors_result
    rw [hcl]
    rw [if_neg (hne data hinv), if_pos hinv, if_pos rfl]
  exact ⟨h1, h2, h3, h2 bom_ascii_buffer (by decide)
    (h1 bom_ascii_buffer
      { normal_ascii := 3, weird_ascii := 0, total_characters := 3 }
      (by decide) (by decide) rfl (by decide))⟩

/-- Witness for C4 at `bom_ascii_buffer`. -/
theorem c4_witness :
    classify_invalid bom_ascii_buffer = 2 ∧
    find_errors_result bom_ascii_buffer = err_invalid_encoding :=
  ⟨c4_utf16_reclassification.1 bom_ascii_buffer
      { normal_ascii := 3, weird_ascii := 0, total_characters := 3 }
      (by decide) (by decide) rfl (by decide),
   c4_utf16_reclassification.2.1 bom_ascii_buffer (by decide)
     (c4_utf16_reclassification.1 bom_ascii_buffer
       { normal_ascii := 3, weird_ascii := 0, total_characters := 3 }
       (by decide) (by decide) rfl (by decide))⟩

/-- Any buffer containing a CR immediately followed by a LF satisfies the
positional CR-LF predicate. -/
theorem crlf_found_of_pair :
    ∀ (pre : List Nat) (p1 : Option Nat) (suf : List Nat),
      crlf_found p1 (pre ++ 13 :: 10 :: suf) = true := by
  intro pre
  induction pre with
  | nil => intro p1 suf; simp [crlf_found]
  | cons a pre' ih => intro p1 suf; simp [crlf_found, ih]

/-- C5: every buffer in which a CR is immediately followed by a LF gets
the CR-LF bit; the unusual-whitespace bit reflects exactly the
free-standing occurrences (VT, FF, and CRs not followed by a LF), so an
absorbed CR contributes nothing to the tally; and the example buffer
"abc\r\ndef\n" yields exactly the CR-LF bit, with unusual-whitespace not
set. -/
theorem c5_crlf_detection :
    (∀ (data pre suf : List Nat), data = pre ++ 13 :: 10 :: suf →
      classify_errors data &&& err_cr_lf_line_endings = err_cr_lf_line_endings) ∧
    (∀ data : List Nat,
      classify_errors data &&& err_unusual_whitespace ≠ 0 ↔ free_unusual data ≠ 0) ∧
    classify_errors [97, 98, 99, 13, 10, 100, 101, 102, 10] = err_cr_lf_line_endings := by
  refine ⟨?_, ?_, by decide⟩
  · intro data pre suf h
    subst h
    have hb : (classify_errors (pre ++ 13 :: 10 :: suf)).testBit 3 = true := by
      rw [classify_errors_bit3, crlf_found_of_pair]
    have := land_of_testBit_true 3 hb
    rw [show err_cr_lf_line_endings = 2 ^ 3 by decide]
    exact this
  · intro data
    rw [show err_unusual_whitespace = 2 ^ 1 by decide, land_single_ne_zero,
      classify_errors_bit1]
    simp

/-- Witness for C5: the CR-LF part applied at the decomposition of
"abc\r\ndef\n" and the tally part applied at the same buffer. -/
theorem c5_witness :
    classify_errors [97, 98, 99, 13, 10, 100, 101, 102, 10] &&&
        err_cr_lf_line_endings = err_cr_lf_line_endings ∧
    ¬(classify_errors [97, 98, 99, 13, 10, 100, 101, 102, 10] &&&
        err_unusual_whitespace ≠ 0) := by
  refine ⟨c5_crlf_detection.1 _ [97, 98, 99] [100, 101, 102, 10] rfl, ?_⟩
  rw [c5_crlf_detection.2.1]
  decide

/-- C8 counterexample: in the buffer "\n\n" the character immediately
preceding the second line feed is itself a line feed — a whitespace
character — yet `classify_errors` does not set the trailing-whitespace
bit (the lookback slot was masked to the sentinel at the first line
feed). -/
theorem c8_counterexample :
    classify_errors [10, 10] &&& err_trailing_whitespace = 0 ∧
    c_isspace 10 = true := by
  refine ⟨?_, ?_⟩ <;> decide

/-- C8 (amended): on a line feed the scanner inspects its lookback value
— the previous byte, or the byte before that when the previous byte is a
CR — except that a byte consumed as a line terminator (a LF, or a CR
absorbed by a CR-LF pair) and the start of the buffer count as the
non-whitespace sentinel; the trailing-whitespace bit is set exactly when
some line feed's inspected value is whitespace.  In particular "abc \n"
sets the bit and "abc\n" does not. -/
theorem c8_trailing_inspection :
    (∀ data : List Nat,
      classify_errors data &&& err_trailing_whitespace ≠ 0 ↔
        trailing_found none none data = true) ∧
    classify_errors [97, 98, 99, 32, 10] &&& err_trailing_whitespace ≠ 0 ∧
    classify_errors [97, 98, 99, 10] &&& err_trailing_whitespace = 0 := by
  refine ⟨?_, by decide, by decide⟩
  intro data
  rw [show err_trailing_whitespace = 2 ^ 2 by decide, land_single_ne_zero,
    classify_errors_bit2]

/-- Witness for C8: the characterisation applied at "abc \n". -/
theorem c8_witness :
    classify_errors [97, 98, 99, 32, 10] &&& err_trailing_whitespace ≠ 0 :=
  (c8_trailing_inspection.1 [97, 98, 99, 32, 10]).mpr (by decide)

/-- C9: the empty buffer yields the empty error set, and so does every
buffer of printable ASCII bytes and line feeds in which no line feed is
immediately preceded by a whitespace byte and whose last byte is a line
feed. -/
theorem c9_clean_buffers :
    classify_errors [] = 0 ∧
    (∀ data : List Nat,
      (∀ c ∈ data, (32 ≤ c ∧ c ≤ 126) ∨ c = 10) →
      pairs_ok none data = true →
      data.getLast? = some 10 →
      classify_errors data = 0) := by
  refine ⟨by decide, ?_⟩
  intro data hall hpo hlast
  obtain ⟨herr, huns⟩ :=
    scan_loop_clean data (scan_init data) none rfl (fun a ha => by cases ha) hall hpo
  have he0 : (scan_init data).errors = 0 := by
    simp only [scan_init]
    rw [if_neg (fun hcon => hcon.2 hlast)]
  rw [classify_errors_eq, herr, huns, he0]
  simp [scan_init]

/-- Witness for C9 at the buffer "ab\n". -/
theorem c9_witness : classify_errors [97, 98, 10] = 0 :=
  c9_clean_buffers.2 [97, 98, 10] (by decide) (by decide) (by decide)

end SourceNormalizer
